import Mathlib

/-!
Verification development for the goperiment scheduling core.

The cron engine (package cron, uint64 bit-mask implementation) is embedded
shallowly: masks are natural numbers below 2^64, Go int arithmetic is Int,
time.Time is a civil (proleptic Gregorian, timezone/DST-free) instant, and
Go runtime panics are modelled as distinguished outcomes.  The periodic
scheduler (package schedule) is embedded for its pure construction part.
-/

set_option maxRecDepth 100000

namespace Goperiment

/-- Go bits.TrailingZeros64 restricted to values below 2 to the 64:
number of trailing zero bits, 64 for input 0.  The auxiliary recursion
carries the remaining fuel. -/
def tzAux (x : Nat) : Nat → Nat
  | 0 => 0
  | n + 1 => if x % 2 = 1 then 0 else tzAux (x / 2) n + 1

/-- Go bits.TrailingZeros64. -/
def tz64 (x : Nat) : Nat := tzAux x 64

/-- Auxiliary recursion for bitLen, carrying the remaining fuel. -/
def bitLenAux : Nat → Nat → Nat
  | 0, _ => 0
  | fuel + 1, x => if x = 0 then 0 else bitLenAux fuel (x / 2) + 1

/-- Bit length of a natural number below 2 to the 64 (position of the
highest set bit plus one), Go bits.Len64. -/
def bitLen (x : Nat) : Nat := bitLenAux 64 x

/-- Go bits.LeadingZeros64 restricted to values below 2 to the 64. -/
def lz64 (x : Nat) : Nat := 64 - bitLen x

/-- Go a &^ b (AND NOT) on natural numbers. -/
def andn (a b : Nat) : Nat := a - (a &&& b)

/-! ## Civil calendar

Conversions between a Gregorian civil date and a count of days since
1970-01-01, following the standard civil-from-days / days-from-civil
algorithms, with floor division so all years are handled. -/

/-- Days since the epoch 1970-01-01 of the civil date y-m-d (m in 1..12). -/
def daysFromCivil (y : Int) (m d : Nat) : Int :=
  let yy : Int := if m ≤ 2 then y - 1 else y
  let era : Int := yy.fdiv 400
  let yoe : Nat := (yy - era * 400).toNat
  let mp : Nat := if m > 2 then m - 3 else m + 9
  let doy : Nat := (153 * mp + 2) / 5 + d - 1
  let doe : Nat := yoe * 365 + yoe / 4 - yoe / 100 + doy
  era * 146097 + (doe : Int) - 719468

/-- Civil date (year, month, day) of a count of days since 1970-01-01. -/
def civilFromDays (z : Int) : Int × Nat × Nat :=
  let z' : Int := z + 719468
  let era : Int := z'.fdiv 146097
  let doe : Nat := (z' - era * 146097).toNat
  let yoe : Nat := (doe - doe / 1460 + doe / 36524 - doe / 146096) / 365
  let doy : Nat := doe - (365 * yoe + yoe / 4 - yoe / 100)
  let mp : Nat := (5 * doy + 2) / 153
  let d : Nat := doy - (153 * mp + 2) / 5 + 1
  let m : Nat := if mp < 10 then mp + 3 else mp - 9
  (if m ≤ 2 then (yoe : Int) + era * 400 + 1 else (yoe : Int) + era * 400, m, d)

/-- A point of civil time as Go time.Time exposes it: calendar date plus
clock, with seconds and nanoseconds kept for the sub-minute rounding done
by After and Before. -/
structure Instant where
  year : Int
  month : Nat
  day : Nat
  hour : Nat
  minute : Nat
  sec : Nat
  nsec : Nat
deriving DecidableEq, Repr

/-- Go t.Weekday() (Sunday = 0): 1970-01-01 was a Thursday (= 4). -/
def weekdayOf (t : Instant) : Nat :=
  ((daysFromCivil t.year t.month t.day + 4).emod 7).toNat

/-- Minutes since the epoch, discarding sub-minute fields. -/
def totalMinutes (t : Instant) : Int :=
  daysFromCivil t.year t.month t.day * 1440 + t.hour * 60 + t.minute

/-- Instant (with zero sub-minute fields) of a count of minutes since the
epoch. -/
def ofTotalMinutes (m : Int) : Instant :=
  let days := m.fdiv 1440
  let rem : Nat := (m - days * 1440).toNat
  let c := civilFromDays days
  { year := c.1, month := c.2.1, day := c.2.2,
    hour := rem / 60, minute := rem % 60, sec := 0, nsec := 0 }

/-- Go t.Add of a whole number of minutes (sub-minute fields are zero at
every use inside After and Before). -/
def addMinutes (t : Instant) (n : Int) : Instant :=
  ofTotalMinutes (totalMinutes t + n)

/-- Go t.AddDate(dy, dm, dd): months are floor-normalized into years, then
the (possibly out-of-range) day is added as an offset from the first of the
normalized month, exactly as Go time.Date normalizes. -/
def addDate (t : Instant) (dy dm dd : Int) : Instant :=
  let ym : Int := (t.year + dy) * 12 + ((t.month : Int) + dm - 1)
  let y : Int := ym.fdiv 12
  let m : Nat := (ym - y * 12).toNat + 1
  let days : Int := daysFromCivil y m 1 + ((t.day : Int) + dd - 1)
  let c := civilFromDays days
  { year := c.1, month := c.2.1, day := c.2.2,
    hour := t.hour, minute := t.minute, sec := t.sec, nsec := t.nsec }

/-! ## Cron expression (package cron, file with type Cron over uint64 masks) -/

/-- Field bounds from the source: firstMinute/lastMinute etc. -/
def firstMinute : Nat := 0
def lastMinute : Nat := 59
def firstHour : Nat := 0
def lastHour : Nat := 23
def firstDay : Nat := 1
def lastDay : Nat := 31
def firstMonth : Nat := 1
def lastMonth : Nat := 12
def firstWeekday : Nat := 0
def lastWeekday : Nat := 7

/-- Flag bit dayStar (1 << 0). -/
def dayStar : Nat := 1

/-- Flag bit weekdayStar (1 << 1). -/
def weekdayStar : Nat := 2

/-- The Cron value: five uint64 bit-masks plus the flag set. -/
structure Cron where
  minutes : Nat
  hours : Nat
  days : Nat
  months : Nat
  weekdays : Nat
  flags : Nat
deriving DecidableEq, Repr

/-- Go Cron.hasFlag. -/
def Cron.hasFlag (c : Cron) (cf : Nat) : Bool := c.flags &&& cf > 0

/-- Go Cron.ScheduledFor.  Note the third check is written in the source as
months & (1 << (t.Day() - firstMonth)): the months mask is indexed by the
day of the month, not by the month. -/
def Cron.scheduledFor (c : Cron) (t : Instant) : Bool :=
  if c.minutes &&& (1 <<< (t.minute - firstMinute)) = 0 then false
  else if c.hours &&& (1 <<< (t.hour - firstHour)) = 0 then false
  else if c.months &&& (1 <<< (t.day - firstMonth)) = 0 then false
  else if ¬c.hasFlag dayStar ∧ ¬c.hasFlag weekdayStar ∧
      c.days &&& (1 <<< (t.day - firstDay)) = 0 ∧
      c.weekdays &&& (1 <<< (weekdayOf t - firstWeekday)) = 0 then false
  else true

/-- Go diffAfter: c := current - first; if bit c of marks is set, (0,
false); else d := TrailingZeros64(marks &^ (1 << c - 1)); if d >= last -
first then (-c + TrailingZeros64(marks), true) else (d - c, false). -/
def diffAfter (current first last : Nat) (marks : Nat) : Int × Bool :=
  let c := current - first
  if marks &&& (1 <<< c) > 0 then (0, false)
  else
    let d := tz64 (andn marks ((1 <<< c) - 1))
    if d ≥ last - first then ((tz64 marks : Int) - c, true)
    else ((d : Int) - c, false)

/-- Go diffBefore: c := current - first; if bit c of marks is set, (0,
false); else d := 64 - LeadingZeros64(marks & (1 << c - 1)) - 1; if d < 0
then (64 - LeadingZeros64(marks), true) else (d - c, false).  The last
parameter is unused, exactly as in the source. -/
def diffBefore (current first last : Nat) (marks : Nat) : Int × Bool :=
  let c := current - first
  if marks &&& (1 <<< c) > 0 then (0, false)
  else
    let d : Int := 64 - lz64 (marks &&& ((1 <<< c) - 1)) - 1
    if d < 0 then ((64 - lz64 marks : Int), true)
    else (d - c, false)

/-- Day/month/weekday loop of Go Cron.After, with fuel for the unbounded
source loop; none means the fuel ran out. -/
def afterLoop (c : Cron) : Nat → Instant → Option Instant
  | 0, _ => none
  | fuel + 1, t =>
    let p1 := diffAfter t.day firstDay lastDay c.days
    let t1 := if p1.2 then addDate t 0 1 0 else t
    let t2 := addDate t1 0 0 p1.1
    let p2 := diffAfter t2.month firstMonth lastMonth c.months
    let t3 := if p2.2 then addDate t2 1 0 0 else t2
    let t4 := addDate t3 0 p2.1 0
    if c.weekdays &&& (1 <<< (weekdayOf t4 - firstWeekday)) > 0 then some t4
    else afterLoop c fuel (addDate t4 0 0 1)

/-- Go Cron.After.  The initial step rounds u up to the next whole minute
(or adds one minute when u is minute-aligned); then minutes and hours are
normalized and the day/month/weekday loop runs. -/
def Cron.after (c : Cron) (u : Instant) (fuel : Nat) : Option Instant :=
  let t :=
    if u.sec * 1000000000 + u.nsec > 0 then ofTotalMinutes (totalMinutes u + 1)
    else addMinutes u 1
  let p1 := diffAfter t.minute firstMinute lastMinute c.minutes
  let t1 := if p1.2 then addMinutes t 60 else t
  let t2 := addMinutes t1 p1.1
  let p2 := diffAfter t2.hour firstHour lastHour c.hours
  let t3 := if p2.2 then addDate t2 0 0 1 else t2
  let t4 := addMinutes t3 (60 * p2.1)
  afterLoop c fuel t4

/-- Day/month/weekday loop of Go Cron.Before, with fuel. -/
def beforeLoop (c : Cron) : Nat → Instant → Option Instant
  | 0, _ => none
  | fuel + 1, t =>
    let p1 := diffBefore t.day firstDay lastDay c.days
    let t1 := if p1.2 then addDate t 0 (-1) 0 else t
    let t2 := addDate t1 0 0 p1.1
    let p2 := diffBefore t2.month firstMonth lastMonth c.months
    let t3 := if p2.2 then addDate t2 (-1) 0 0 else t2
    let t4 := addDate t3 0 p2.1 0
    if c.weekdays &&& (1 <<< (weekdayOf t4 - firstWeekday)) > 0 then some t4
    else beforeLoop c fuel (addDate t4 0 0 (-1))

/-- Go Cron.Before.  The initial step truncates u to its whole minute (or
subtracts one minute when u is minute-aligned). -/
def Cron.before (c : Cron) (u : Instant) (fuel : Nat) : Option Instant :=
  let t :=
    if u.sec * 1000000000 + u.nsec > 0 then ofTotalMinutes (totalMinutes u)
    else addMinutes u (-1)
  let p1 := diffBefore t.minute firstMinute lastMinute c.minutes
  let t1 := if p1.2 then addMinutes t (-60) else t
  let t2 := addMinutes t1 p1.1
  let p2 := diffBefore t2.hour firstHour lastHour c.hours
  let t3 := if p2.2 then addDate t2 0 0 (-1) else t2
  let t4 := addMinutes t3 (60 * p2.1)
  beforeLoop c fuel t4

/-! ## Parser (Go Parse with cronScanner over a strings.Reader)

The rune scanner is modelled as the unread input plus the pushback state a
strings.Reader keeps (UnreadRune succeeds only directly after a successful
ReadRune), plus the scanner's cached current rune ch.  A failed ReadRune at
end of input sets ch to the zero rune, as Go does. -/

/-- Go unicode.IsSpace on the Latin-1 range cron input uses. -/
def isSpaceGo (c : Char) : Bool :=
  c = ' ' || c = '\t' || c = '\n' || c.toNat = 11 || c.toNat = 12 ||
    c.toNat = 13 || c.toNat = 133 || c.toNat = 160

/-- Go unicode.IsDigit on the ASCII range cron input uses. -/
def isDigitGo (c : Char) : Bool := '0' ≤ c && c ≤ '9'

/-- Go unicode.IsLetter on the ASCII range cron input uses. -/
def isLetterGo (c : Char) : Bool :=
  ('a' ≤ c && c ≤ 'z') || ('A' ≤ c && c ≤ 'Z')

/-- ASCII lowering, the effect of strings.EqualFold on three-letter
names. -/
def lowerAscii (c : Char) : Char :=
  if 'A' ≤ c && c ≤ 'Z' then Char.ofNat (c.toNat + 32) else c

/-- Go strings.EqualFold on ASCII words. -/
def eqFold (a b : List Char) : Bool := a.map lowerAscii = b.map lowerAscii

/-- Go strconv.Atoi on a digit word (errors are discarded by the caller in
the source). -/
def atoi (ds : List Char) : Int :=
  (ds.foldl (fun n c => n * 10 + (c.toNat - 48)) 0 : Nat)

/-- State of the cronScanner: unread input, strings.Reader pushback state,
and the cached current rune ch. -/
structure RScan where
  rest : List Char
  prevOk : Bool
  prevChar : Char
  ch : Char
deriving DecidableEq, Repr

/-- Go cronScanner.readRune; the Bool is true when ReadRune reported
io.EOF, in which case ch becomes the zero rune and pushback is invalid. -/
def readRune (s : RScan) : RScan × Bool :=
  match s.rest with
  | [] => ({ s with ch := Char.ofNat 0, prevOk := false }, true)
  | c :: r => ({ rest := r, prevOk := true, prevChar := c, ch := c }, false)

/-- Go cronScanner.unreadRune (its error is always discarded by callers):
rewinds the reader one rune when the last operation was a successful
ReadRune, otherwise does nothing.  The cached ch is not touched. -/
def unreadRune (s : RScan) : RScan :=
  if s.prevOk then
    { rest := s.prevChar :: s.rest, prevOk := false, prevChar := s.prevChar, ch := s.ch }
  else s

/-- Reads runes into the builder while the predicate holds of ch, exactly
as the two collection loops of Go scanNumber; returns the state, the
collected word, and whether the loop stopped on io.EOF. -/
def readWhile (p : Char → Bool) : Nat → RScan → List Char → RScan × List Char × Bool
  | 0, s, acc => (s, acc, false)
  | fuel + 1, s, acc =>
    if p s.ch then
      let acc' := acc ++ [s.ch]
      let step := readRune s
      if step.2 then (step.1, acc', true)
      else readWhile p fuel step.1 acc'
    else (s, acc, false)

/-- Scanner-level outcomes.  eof stands for the io.EOF sentinel error; the
remaining constructors are the distinct error values Go produces. -/
inductive SErr where
  | eof
  | invalidTerminator
  | dashNoValue
  | rangeInverted
  | stepZero
  | rangeEndBelowLow
  | rangeEndAboveHigh
  | stepAboveHigh
deriving DecidableEq, Repr

/-- Index lookup among the name tables, Go's indexed range loop with
strings.EqualFold. -/
def nameLookup : List (List Char) → Nat → List Char → Option Nat
  | [], _, _ => none
  | n :: ns, i, w => if eqFold n w then some i else nameLookup ns (i + 1) w

/-- Go cronScanner.scanNumber. -/
def scanNumber (s : RScan) (low : Int) (names : List (List Char))
    (terms : List Char) : RScan × Except SErr Int :=
  let d := readWhile isDigitGo (s.rest.length + 1) s []
  let s1 := d.1
  if d.2.1 ≠ [] then
    if ¬terms.contains s1.ch ∧ ¬d.2.2 then
      (unreadRune s1, .error .invalidTerminator)
    else (s1, .ok (atoi d.2.1))
  else if names ≠ [] then
    let l := readWhile isLetterGo (s1.rest.length + 1) s1 []
    let s2 := l.1
    if l.2.1 ≠ [] ∧ (terms.contains s2.ch ∨ l.2.2) then
      match nameLookup names 0 l.2.1 with
      | some i => (s2, .ok ((i : Int) + low))
      | none => (unreadRune s2, .error .eof)
    else (unreadRune s2, .error .eof)
  else (unreadRune s1, .error .eof)

/-- Go cronRange: from, to, step and the offset (the field's low bound). -/
structure CRange where
  rfrom : Int
  rto : Int
  rstep : Int
  roffset : Int
deriving DecidableEq, Repr

/-- Go newCronRangeBetween. -/
def newCronRangeBetween (low high : Nat) : CRange :=
  { rfrom := low, rto := high, rstep := 1, roffset := low }

/-- Loop body of Go cronRange.Bits; an error result models a Go runtime
panic from a negative shift amount (1 << i with i < 0). -/
def bitsLoop (t step : Int) : Nat → Int → Nat → Except Unit Nat
  | 0, _, b => .ok b
  | fuel + 1, i, b =>
    if i ≤ t then
      if i < 0 then .error ()
      else bitsLoop t step fuel (i + step) (b ||| (1 <<< i.toNat))
    else .ok b

/-- Go cronRange.Bits; an error result models a Go runtime panic (either
the explicit zero-step panic or a negative shift amount). -/
def cronRangeBits (r : CRange) : Except Unit Nat :=
  let f := r.rfrom - r.roffset
  let t := r.rto - r.roffset
  if r.rstep = 0 then .error ()
  else bitsLoop t r.rstep ((t - f).toNat + 1) f 0

/-- Go cronScanner.scanRange: returns the (possibly partially filled)
range together with the error value, since callers use the range even on
the io.EOF path. -/
def scanRange (s : RScan) (low high : Nat) (names : List (List Char)) :
    RScan × CRange × Option SErr :=
  let r0 : CRange := { rfrom := 0, rto := 0, rstep := 1, roffset := low }
  if s.ch = '*' then
    let r1 := { r0 with rfrom := (low : Int), rto := (high : Int) }
    let step := readRune s
    if step.2 then (step.1, r1, some .eof)
    else checkRange step.1 r1 high low
  else
    let n1 := scanNumber s low names [',', '-', ' ', '\t', '\n']
    match n1.2 with
    | .error e => (n1.1, r0, some e)
    | .ok v =>
      let r1 := { r0 with rfrom := v }
      if n1.1.ch ≠ '-' then
        checkRange n1.1 { r1 with rto := v } high low
      else
        let step := readRune n1.1
        if step.2 then (step.1, r1, some .dashNoValue)
        else
          let n2 := scanNumber step.1 low names ['/', ',', ' ', '\t', '\n']
          match n2.2 with
          | .error e => (n2.1, r1, some e)
          | .ok w =>
            if v > w then (n2.1, { r1 with rto := w }, some .rangeInverted)
            else checkRange n2.1 { r1 with rto := w } high low
where
  /-- Tail of Go scanRange: the optional /step and the final range
  checks. -/
  checkRange (s : RScan) (r : CRange) (high low : Nat) :
      RScan × CRange × Option SErr :=
    let k := stepPart s r
    match k.2.2 with
    | some e => (k.1, k.2.1, some e)
    | none =>
      let r := k.2.1
      if r.rto < low then (k.1, r, some .rangeEndBelowLow)
      else if r.rto > (high : Int) then (k.1, r, some .rangeEndAboveHigh)
      else if r.rstep > (high : Int) then (k.1, r, some .stepAboveHigh)
      else (k.1, r, none)
  /-- The check-for-step-size block of Go scanRange. -/
  stepPart (s : RScan) (r : CRange) : RScan × CRange × Option SErr :=
    if s.ch = '/' then
      let step := readRune s
      if step.2 then (step.1, r, some .eof)
      else
        let n3 := scanNumber step.1 0 [] [',', ' ', '\t', '\n']
        match n3.2 with
        | .error e => (n3.1, { r with rstep := 0 }, some e)
        | .ok v =>
          if v = 0 then (n3.1, { r with rstep := 0 }, some .stepZero)
          else (n3.1, { r with rstep := v }, none)
    else (s, r, none)

/-- Result of Go cronScanner.ScanList: the returned mask together with the
error value (nil, io.EOF, or a real error), or a Go runtime panic raised
by cronRange.Bits. -/
inductive ScanRes where
  | ok (b : Nat)
  | okEOF (b : Nat)
  | err (e : SErr)
  | panicked
deriving DecidableEq, Repr

/-- Skip-to-some-blanks loop of Go ScanList; the Bool is true when the
loop stopped because ReadRune reported io.EOF. -/
def skipToSpace : Nat → RScan → RScan × Bool
  | 0, s => (s, true)
  | fuel + 1, s =>
    if ¬isSpaceGo s.ch then
      let step := readRune s
      if step.2 then (step.1, true) else skipToSpace fuel step.1
    else (s, false)

/-- Skip-over-the-blanks loop of Go ScanList. -/
def skipSpaces : Nat → RScan → RScan × Bool
  | 0, s => (s, true)
  | fuel + 1, s =>
    if isSpaceGo s.ch then
      let step := readRune s
      if step.2 then (step.1, true) else skipSpaces fuel step.1
    else (s, false)

/-- Comma loop of Go cronScanner.ScanList. -/
def scanListAux (low high : Nat) (names : List (List Char)) :
    Nat → RScan → Nat → RScan × ScanRes
  | 0, s, _ => (s, .err .eof)
  | fuel + 1, s, b =>
    let sc := scanRange s low high names
    match sc.2.2 with
    | some .eof =>
      match cronRangeBits sc.2.1 with
      | .error _ => (sc.1, .panicked)
      | .ok bits => (sc.1, .okEOF (b ||| bits))
    | some e => (sc.1, .err e)
    | none =>
      match cronRangeBits sc.2.1 with
      | .error _ => (sc.1, .panicked)
      | .ok bits =>
        let b := b ||| bits
        if sc.1.ch = ',' then
          let step := readRune sc.1
          if step.2 then (step.1, .okEOF b)
          else scanListAux low high names fuel step.1 b
        else
          let k1 := skipToSpace (sc.1.rest.length + 1) sc.1
          if k1.2 then (k1.1, .okEOF b)
          else
            let k2 := skipSpaces (k1.1.rest.length + 1) k1.1
            if k2.2 then (k2.1, .okEOF b) else (k2.1, .ok b)

/-- Go cronScanner.ScanList. -/
def scanList (s : RScan) (low high : Nat) (names : List (List Char)) :
    RScan × ScanRes :=
  scanListAux low high names (s.rest.length + 2) s 0

/-- Month name table of the source. -/
def shortMonthNames : List (List Char) :=
  ["Jan".toList, "Feb".toList, "Mar".toList, "Apr".toList, "May".toList,
   "Jun".toList, "Jul".toList, "Aug".toList, "Sep".toList, "Oct".toList,
   "Nov".toList, "Dec".toList]

/-- Weekday name table of the source. -/
def shortDayNames : List (List Char) :=
  ["Sun".toList, "Mon".toList, "Tue".toList, "Wed".toList, "Thu".toList,
   "Fri".toList, "Sat".toList]

/-- Outcomes of Go Parse: the error returns (tagged by the field whose
error was wrapped), or a Go runtime panic escaping Parse. -/
inductive PErr where
  | emptyInput
  | badShorthand
  | fieldMinute
  | fieldHour
  | fieldDay
  | fieldMonth
  | fieldWeekday
  | runtimePanic
deriving DecidableEq, Repr

/-- Field extraction for the minute, hour, day and month fields, where an
io.EOF result from ScanList is a non-nil error. -/
def fieldVal : ScanRes → PErr → Except PErr Nat
  | .ok b, _ => .ok b
  | .okEOF _, e => .error e
  | .err _, e => .error e
  | .panicked, _ => .error .runtimePanic

/-- Field extraction for the weekday field, where io.EOF is tolerated
(err != nil && err != io.EOF in the source). -/
def weekdayVal : ScanRes → Except PErr Nat
  | .ok b => .ok b
  | .okEOF b => .ok b
  | .err _ => .error .fieldWeekday
  | .panicked => .error .runtimePanic

/-- Bit mask of a cronRange inside Parse's shorthand branch, with a Bits
panic escaping Parse. -/
def bitsE (r : CRange) : Except PErr Nat :=
  match cronRangeBits r with
  | .error _ => .error .runtimePanic
  | .ok b => .ok b

/-- Go Parse before the final Sunday normalization. -/
def parseCore (s : String) : Except PErr Cron :=
  match h : s.toList with
  | [] => .error .emptyInput
  | ch0 :: rest =>
    if ch0 = '@' then
      if s = "@yearly" ∨ s = "@annually" then do
        let wk ← bitsE (newCronRangeBetween firstWeekday lastWeekday)
        pure { minutes := 0, hours := 0, days := 0, months := 0,
               weekdays := wk, flags := weekdayStar }
      else if s = "@monthly" then do
        let mo ← bitsE (newCronRangeBetween firstMonth lastMonth)
        let wk ← bitsE (newCronRangeBetween firstWeekday lastWeekday)
        pure { minutes := 0, hours := 0, days := 0, months := mo,
               weekdays := wk, flags := weekdayStar }
      else if s = "@weekly" then do
        let dy ← bitsE (newCronRangeBetween firstDay lastDay)
        let mo ← bitsE (newCronRangeBetween firstMonth lastMonth)
        pure { minutes := 0, hours := 0, days := dy, months := mo,
               weekdays := 0, flags := dayStar }
      else if s = "@daily" ∨ s = "@midnight" then do
        let dy ← bitsE (newCronRangeBetween firstDay lastDay)
        let mo ← bitsE (newCronRangeBetween firstMonth lastMonth)
        let wk ← bitsE (newCronRangeBetween firstWeekday lastWeekday)
        pure { minutes := 0, hours := 0, days := dy, months := mo,
               weekdays := wk, flags := dayStar ||| weekdayStar }
      else if s = "@hourly" then do
        let hr ← bitsE (newCronRangeBetween firstHour lastHour)
        let dy ← bitsE (newCronRangeBetween firstDay lastDay)
        let mo ← bitsE (newCronRangeBetween firstMonth lastMonth)
        let wk ← bitsE (newCronRangeBetween firstWeekday lastWeekday)
        pure { minutes := 0, hours := hr, days := dy, months := mo,
               weekdays := wk, flags := dayStar ||| weekdayStar }
      else .error .badShorthand
    else do
      let s0 : RScan := { rest := rest, prevOk := true, prevChar := ch0, ch := ch0 }
      let k1 := scanList s0 firstMinute lastMinute []
      let minutes ← fieldVal k1.2 .fieldMinute
      let k2 := scanList k1.1 firstHour lastHour []
      let hours ← fieldVal k2.2 .fieldHour
      let dayFlag : Nat := if k2.1.ch = '*' then dayStar else 0
      let k3 := scanList k2.1 firstDay lastDay []
      let days ← fieldVal k3.2 .fieldDay
      let k4 := scanList k3.1 firstMonth lastMonth shortMonthNames
      let months ← fieldVal k4.2 .fieldMonth
      let wdFlag : Nat := if k4.1.ch = '*' then weekdayStar else 0
      let k5 := scanList k4.1 firstWeekday lastWeekday shortDayNames
      let weekdays ← weekdayVal k5.2
      pure { minutes := minutes, hours := hours, days := days,
             months := months, weekdays := weekdays,
             flags := dayFlag ||| wdFlag }

/-- Sunday normalization at the tail of Go Parse: if weekdays &
0b10000001 is nonzero, both bit 0 and bit 7 are set. -/
def sundayNormalize (c : Cron) : Cron :=
  if c.weekdays &&& 129 > 0 then { c with weekdays := c.weekdays ||| 129 } else c

/-- Go Parse: parseCore followed by the Sunday normalization applied on
every success path. -/
def parse (s : String) : Except PErr Cron := (parseCore s).map sundayNormalize

/-! ## Periodic schedule (package schedule) -/

/-- The Schedule struct: only the pure fields p and o (the channel and the
timer goroutine carry no data the accessors read). -/
structure Schedule where
  p : Int
  o : Int
deriving DecidableEq, Repr

/-- Go NewSchedule, pure part: panics (none) when the period is not
positive; otherwise the struct literal Schedule{C: ch} leaves p and o at
their zero values. -/
def newSchedule (p o : Int) : Option Schedule :=
  if p ≤ 0 then none else some { p := 0, o := 0 }

/-- Go Schedule.Period. -/
def Schedule.period (s : Schedule) : Int := s.p

/-- Go Schedule.Offset. -/
def Schedule.offset (s : Schedule) : Int := s.o

/-! ## Spec-side reference definitions

These follow the specification's words, for comparison against the source
embeddings above. -/

/-- The matches predicate as the specification states it: each component
bit set, with the two-day-fields rule (day-of-month OR weekday, skipped
when either star flag is set). -/
def specMatches (c : Cron) (t : Instant) : Bool :=
  c.minutes.testBit (t.minute - firstMinute) &&
  c.hours.testBit (t.hour - firstHour) &&
  c.months.testBit (t.month - firstMonth) &&
  (c.hasFlag dayStar || c.hasFlag weekdayStar ||
    c.days.testBit (t.day - firstDay) ||
    c.weekdays.testBit (weekdayOf t - firstWeekday))

/-- diff_after as the specification states it: let pos = current - low;
(0, false) when bit pos is set; else (k - pos, false) for the lowest set
bit k in the inclusive window pos+1 .. high-low; else
(lowest_set_bit(mask) - pos, true). -/
def specDiffAfter (current low high : Nat) (mask : Nat) : Int × Bool :=
  let pos := current - low
  if mask.testBit pos then (0, false)
  else
    let k := tz64 (andn mask ((1 <<< (pos + 1)) - 1))
    if k ≤ high - low then ((k : Int) - pos, false)
    else ((tz64 mask : Int) - pos, true)

/-- diff_before as the specification and claim state it: delta from the
highest set bit of the mask strictly below pos when one exists (no
underflow), otherwise underflow with delta = highest_set_bit(mask) -
pos. -/
def specDiffBefore (current low high : Nat) (mask : Nat) : Int × Bool :=
  let pos := current - low
  let below := mask &&& ((1 <<< pos) - 1)
  if below > 0 then ((bitLen below - 1 : Int) - pos, false)
  else ((bitLen mask - 1 : Int) - pos, true)

/-! ## Concrete values used by the theorems -/

/-- The cron parsed from "* * * * *": all masks full, both star flags. -/
def starCron : Cron :=
  { minutes := (1 <<< 60) - 1, hours := (1 <<< 24) - 1, days := (1 <<< 31) - 1,
    months := (1 <<< 12) - 1, weekdays := (1 <<< 8) - 1, flags := 3 }

/-- The cron parsed from "0,30 0,12 1,15 JAN,JUN MON". -/
def scenarioCron : Cron :=
  { minutes := (1 <<< 0) + (1 <<< 30), hours := (1 <<< 0) + (1 <<< 12),
    days := (1 <<< 0) + (1 <<< 14), months := (1 <<< 0) + (1 <<< 5),
    weekdays := 1 <<< 1, flags := 0 }

/-- The cron parsed from "@weekly". -/
def weeklyCron : Cron :=
  { minutes := 0, hours := 0, days := (1 <<< 31) - 1, months := (1 <<< 12) - 1,
    weekdays := 0, flags := dayStar }

/-- The cron parsed from "0 0 1 * MON". -/
def monCron : Cron :=
  { minutes := 1, hours := 1, days := 1, months := (1 <<< 12) - 1,
    weekdays := 1 <<< 1, flags := 0 }

/-! ## Claim theorems -/

/-- C1.  The claim says matches(c,t) tests the month bit for t's month; the
source tests the months mask at bit t.Day() - firstMonth.  At the cron of
"* * * * *" and t = 1990-01-15 12:30:00 the claim's predicate (specMatches)
is true, but ScheduledFor is false because bit 14 of the 12-bit months mask
is clear.  The code contradicts its own comment, which requires the
'month of the year' field to match. -/
theorem scheduledFor_uses_day_index_into_months :
    parse "* * * * *" = Except.ok starCron ∧
    starCron.scheduledFor ⟨1990, 1, 15, 12, 30, 0, 0⟩ = false ∧
    specMatches starCron ⟨1990, 1, 15, 12, 30, 0, 0⟩ = true :=
  ⟨rfl, rfl, rfl⟩

/-- C2.  The claim says after(c,t) > t and matches(c, after(c,t)).  For
c = "* * * * *" and u = 1990-01-14 00:00:00, After returns 1990-01-14
00:01:00 (strictly later), yet ScheduledFor of that result is false, since
ScheduledFor tests the months mask at bit day - 1 = 13. -/
theorem after_advances_but_misses_scheduledFor :
    parse "* * * * *" = Except.ok starCron ∧
    starCron.after ⟨1990, 1, 14, 0, 0, 0, 0⟩ 10 =
      some ⟨1990, 1, 14, 0, 1, 0, 0⟩ ∧
    starCron.scheduledFor ⟨1990, 1, 14, 0, 1, 0, 0⟩ = false :=
  ⟨rfl, rfl, rfl⟩

/-- C3.  The claim says a set bit at a position k in [pos+1, high-low]
(including high-low itself) yields (k - pos, false).  The source tests
d >= last - first, so the bit at exactly position high - low is treated as
overflow: for mask with only bit 59 set and pos = 0 the code returns
(59, true) where the claim's reference definition returns (59, false), and
for mask with bits 10 and 59 and pos = 30 the code returns (-20, true)
where the reference returns (29, false). -/
theorem diffAfter_top_bit_treated_as_overflow :
    diffAfter 0 0 59 (1 <<< 59) = (59, true) ∧
    specDiffAfter 0 0 59 (1 <<< 59) = (59, false) ∧
    diffAfter 30 0 59 ((1 <<< 10) + (1 <<< 59)) = (-20, true) ∧
    specDiffAfter 30 0 59 ((1 <<< 10) + (1 <<< 59)) = (29, false) :=
  ⟨rfl, rfl, rfl, rfl⟩

/-- C4.  The claim says underflow yields delta = highest_set_bit(mask) -
pos.  The source returns 64 - LeadingZeros64(marks), which is the highest
set bit plus one, independent of pos: at current = 10, mask with bits 30
and 40 the code returns (41, true) where the claim requires (30, true). -/
theorem diffBefore_underflow_delta_ignores_pos :
    diffBefore 10 0 59 ((1 <<< 30) + (1 <<< 40)) = (41, true) ∧
    specDiffBefore 10 0 59 ((1 <<< 30) + (1 <<< 40)) = (30, true) :=
  ⟨rfl, rfl⟩

/-- C5.  The claim's scenario expects after = 1990-01-22 00:00 and before
= 1990-01-08 12:30 under the either-day-field rule.  The source's After
and Before normalize the day against the days mask and then also require
the weekday bit, ignoring the star flags, so both day fields must match:
After lands on 1992-06-01 (the first day-1-or-15 in Jan/Jun that is a
Monday after u) and Before lands on 1990-01-01. -/
theorem after_before_demand_both_day_fields :
    parse "0,30 0,12 1,15 JAN,JUN MON" = Except.ok scenarioCron ∧
    scenarioCron.after ⟨1990, 1, 15, 12, 30, 0, 0⟩ 1000 =
      some ⟨1992, 6, 1, 0, 0, 0, 0⟩ ∧
    scenarioCron.before ⟨1990, 1, 15, 0, 0, 0, 0⟩ 1000 =
      some ⟨1990, 1, 1, 12, 30, 0, 0⟩ ∧
    (⟨1992, 6, 1, 0, 0, 0, 0⟩ : Instant) ≠ ⟨1990, 1, 22, 0, 0, 0, 0⟩ ∧
    (⟨1990, 1, 1, 12, 30, 0, 0⟩ : Instant) ≠ ⟨1990, 1, 8, 12, 30, 0, 0⟩ :=
  ⟨rfl, rfl, rfl, by decide, by decide⟩

/-- C6.  The claim says "@weekly" yields a weekdays mask with bit 0 set
and a cron matching Sunday midnight.  The source assigns the literal value
0 (not the mask 1 << 0) to minutes, hours and weekdays, so the weekdays
mask is empty and ScheduledFor is false even at a Sunday midnight
(1990-01-07 00:00:00 was a Sunday), contradicting the function's own
documentation that "@weekly" runs once a week on Sunday morning. -/
theorem weekly_shorthand_masks_are_value_zero :
    parse "@weekly" = Except.ok weeklyCron ∧
    weeklyCron.weekdays = 0 ∧
    weeklyCron.minutes = 0 ∧
    weeklyCron.scheduledFor ⟨1990, 1, 7, 0, 0, 0, 0⟩ = false :=
  ⟨rfl, rfl, rfl, rfl⟩

/-- C7.  The claim says after(c, before(c,t)) = t whenever matches(c,t)
holds at a minute-aligned t.  For c = "0 0 1 * MON" and t = 1990-01-08
00:00:00 (a Monday, so ScheduledFor is true by the either-day rule),
Before returns 1990-01-01 and After of that returns 1990-10-01, the next
date that is simultaneously day 1 and a Monday; the round trip misses t by
almost nine months. -/
theorem roundTrip_fails_on_either_day_rule :
    parse "0 0 1 * MON" = Except.ok monCron ∧
    monCron.scheduledFor ⟨1990, 1, 8, 0, 0, 0, 0⟩ = true ∧
    monCron.before ⟨1990, 1, 8, 0, 0, 0, 0⟩ 100 =
      some ⟨1990, 1, 1, 0, 0, 0, 0⟩ ∧
    monCron.after ⟨1990, 1, 1, 0, 0, 0, 0⟩ 100 =
      some ⟨1990, 10, 1, 0, 0, 0, 0⟩ ∧
    (⟨1990, 10, 1, 0, 0, 0, 0⟩ : Instant) ≠ ⟨1990, 1, 8, 0, 0, 0, 0⟩ :=
  ⟨rfl, rfl, rfl, rfl, by decide⟩

/-- Auxiliary: the Sunday normalization always leaves bit 0 and bit 7 of
the weekdays mask equal. -/
theorem sundayNormalize_bit0_eq_bit7 (c : Cron) :
    (sundayNormalize c).weekdays.testBit 0 = (sundayNormalize c).weekdays.testBit 7 := by
  unfold sundayNormalize
  by_cases h : c.weekdays &&& 129 > 0
  · simp only [h, if_pos]
    have h0 : (129 : Nat).testBit 0 = true := by decide
    have h7 : (129 : Nat).testBit 7 = true := by decide
    simp [Nat.testBit_lor, h0, h7]
  · simp only [h, if_neg, if_false]
    have hz : c.weekdays &&& 129 = 0 := Nat.eq_zero_of_not_pos h
    have h0 : c.weekdays.testBit 0 = false := by
      have h2 := congrArg (fun n => Nat.testBit n 0) hz
      have ht : Nat.testBit 129 0 = true := by decide
      simp only [Nat.testBit_land] at h2
      simpa [ht] using h2
    have h7 : c.weekdays.testBit 7 = false := by
      have h2 := congrArg (fun n => Nat.testBit n 7) hz
      have ht : Nat.testBit 129 7 = true := by decide
      simp only [Nat.testBit_land] at h2
      simpa [ht] using h2
    simp [h0, h7]

/-- C8.  Every successfully parsed cron expression (five-field or
shorthand) has bit 0 of the weekdays mask set exactly when bit 7 is set:
Parse ends every success path with the Sunday normalization. -/
theorem parse_weekday_bit0_iff_bit7 (s : String) (c : Cron)
    (h : parse s = Except.ok c) :
    c.weekdays.testBit 0 = c.weekdays.testBit 7 := by
  unfold parse at h
  cases hc : parseCore s with
  | error e => rw [hc] at h; exact absurd h (by simp [Except.map])
  | ok c0 =>
    rw [hc] at h
    simp only [Except.map] at h
    cases h
    exact sundayNormalize_bit0_eq_bit7 c0

/-- The cron parsed from "* * * * 7": Sunday given as 7, normalized so
both bit 0 and bit 7 are set. -/
def sevenCron : Cron :=
  { minutes := (1 <<< 60) - 1, hours := (1 <<< 24) - 1, days := (1 <<< 31) - 1,
    months := (1 <<< 12) - 1, weekdays := 129, flags := 1 }

/-- Witness for C8 at the concrete input "* * * * 7". -/
theorem parse_weekday_bit0_iff_bit7_witness :
    parse "* * * * 7" = Except.ok sevenCron ∧
    sevenCron.weekdays.testBit 0 = sevenCron.weekdays.testBit 7 :=
  ⟨rfl, parse_weekday_bit0_iff_bit7 "* * * * 7" sevenCron rfl⟩

/-- C9.  The claim says a field value below the field's low bound is
always reported as an out-of-range parse error.  The source validates only
the range end against low, so "0-5" in the day-of-month field passes the
checks, and cronRange.Bits then evaluates 1 << (0 - 1): a Go runtime panic
(negative shift amount), not an error return. -/
theorem parse_range_start_below_low_panics :
    parse "* * 0-5 * *" = Except.error PErr.runtimePanic :=
  rfl

/-- C10.  NewSchedule builds the returned struct as Schedule{C: ch},
leaving the period and offset fields at their zero values, so Period() and
Offset() return 0 for every positive period and any offset. -/
theorem newSchedule_period_offset_zero (p o : Int) (h : 0 < p) :
    (newSchedule p o).map Schedule.period = some 0 ∧
    (newSchedule p o).map Schedule.offset = some 0 := by
  unfold newSchedule
  rw [if_neg (by omega)]
  exact ⟨rfl, rfl⟩

/-- Witness for C10 at period 5 and offset 3. -/
theorem newSchedule_period_offset_zero_witness :
    (newSchedule 5 3).map Schedule.period = some 0 ∧
    (newSchedule 5 3).map Schedule.offset = some 0 :=
  newSchedule_period_offset_zero 5 3 (by decide)

end Goperiment
